import Mathlib

/-!
Verification of the fork-state index-consistency subsystem
(`crates/uv-resolver/src/fork_indexes.rs`).

The tracker (`ForkIndexes`) wraps a hash map from package names to index
urls.  The map is embedded as an association list whose keys are unique in
every reachable state; `mapInsert` has exactly the observable behaviour of
`HashMap::insert`: it writes the new value and returns the previous value
for the key, if any.  The Rust `insert` method takes `&mut self` and
returns `Result<(), ResolveError>`; it is embedded as a function returning
the pair of the result and the updated tracker, so that the state after a
*failed* call is also captured faithfully.
-/

/-- Modelled from the spec: `uv_normalize::PackageName` (not under `src/`) is a
normalized, comparable package identifier; embedded as a string. -/
abbrev PackageName := String

/-- Modelled from the spec: `uv_distribution_types::IndexUrl` (not under `src/`)
is an opaque index identity with equality and a stable string rendering;
embedded as a string, whose rendering (`toString`) is itself. -/
abbrev IndexUrl := String

/-- Modelled from the spec: a marker expression (opaque, displayable, cloneable);
embedded as its display string. -/
abbrev MarkerTree := String

/-- Modelled from the spec: the pinned concrete environment carried by the
`SpecificEnvironment` fork identity; opaque at this layer. -/
abbrev ResolverMarkerEnvironment := String

/-- Modelled from the spec: `crate::resolver::ResolverMarkers` (not under
`src/`), the Fork Identity: a universal resolution, a single pinned
environment, or a marker-delimited fork. -/
inductive ResolverMarkers where
  | universal : ResolverMarkers
  | specificEnvironment : ResolverMarkerEnvironment → ResolverMarkers
  | fork : MarkerTree → ResolverMarkers
  deriving DecidableEq, Repr

/-- Modelled from the spec: the two conflicting-index variants of
`crate::ResolveError` (not under `src/`): `ConflictingIndexesUniversal`
carries the package name and the sorted index strings;
`ConflictingIndexesFork` additionally carries the fork's markers. -/
inductive ResolveError where
  | conflictingIndexesUniversal : PackageName → List String → ResolveError
  | conflictingIndexesFork : PackageName → List String → MarkerTree → ResolveError
  deriving DecidableEq, Repr

/-- `Vec::sort` on the two-element vector `vec![a, b]`: swap iff `b < a` in
lexicographic string order (stated on the underlying character lists, which
coincides with the order on `String` by `String.lt_iff_toList_lt`; UTF-8
byte order, which Rust sorts by, agrees with code-point order). -/
def sort2 (a b : String) : List String :=
  if b.data < a.data then [b, a] else [a, b]

/-- `HashMap::get`: the value stored for `k`, if any. -/
def lookupList (l : List (PackageName × IndexUrl)) (k : PackageName) : Option IndexUrl :=
  match l with
  | [] => none
  | (k', v) :: rest => if k' = k then some v else lookupList rest k

/-- `HashMap::insert`: write `v` under `k` and return the value previously
stored for `k`, if any, together with the updated map. -/
def mapInsert (k : PackageName) (v : IndexUrl) :
    List (PackageName × IndexUrl) → Option IndexUrl × List (PackageName × IndexUrl)
  | [] => (none, [(k, v)])
  | (k', v') :: rest =>
    if k' = k then (some v', (k, v) :: rest)
    else
      let r := mapInsert k v rest
      (r.1, (k', v') :: r.2)

/-- `ForkIndexes(FxHashMap<PackageName, IndexUrl>)`: the per-fork tracker of
which index each package has been assigned to. -/
structure ForkIndexes where
  map : List (PackageName × IndexUrl)
  deriving DecidableEq, Repr

namespace ForkIndexes

/-- `ForkIndexes::default()`: the empty tracker a fresh fork starts from. -/
def empty : ForkIndexes := ⟨[]⟩

/-- `ForkIndexes::get`: the `IndexUrl` previously used for a package in this
fork.  Takes the tracker immutably and returns no new state: lookup has no
side effects by construction. -/
def get (m : ForkIndexes) (package_name : PackageName) : Option IndexUrl :=
  lookupList m.map package_name

/-- `ForkIndexes::insert`: check that this is the only `IndexUrl` used for
this package in this fork.  As in the source, the map is written *first*
(`self.0.insert`), and the previous value, when present and different from
the candidate, produces a conflict error whose shape depends on
`fork_markers`; the updated state is returned in both the success and the
failure case, mirroring `&mut self`. -/
def insert (m : ForkIndexes) (package_name : PackageName) (index : IndexUrl)
    (fork_markers : ResolverMarkers) : Except ResolveError Unit × ForkIndexes :=
  let r := mapInsert package_name index m.map
  let m' : ForkIndexes := ⟨r.2⟩
  match r.1 with
  | some previous =>
    if previous ≠ index then
      let conflicts := sort2 (toString previous) (toString index)
      match fork_markers with
      | .universal | .specificEnvironment _ =>
        (.error (.conflictingIndexesUniversal package_name conflicts), m')
      | .fork fork_markers =>
        (.error (.conflictingIndexesFork package_name conflicts fork_markers), m')
    else
      (.ok (), m')
  | none => (.ok (), m')

end ForkIndexes

/-- `true` iff the `Result` of an insert call is `Ok`. -/
def resultOk : Except ResolveError Unit → Bool
  | .ok _ => true
  | .error _ => false

/-- The package name carried by a conflict error. -/
def errPackage : ResolveError → PackageName
  | .conflictingIndexesUniversal p _ => p
  | .conflictingIndexesFork p _ _ => p

/-- The list of conflicting index strings carried by a conflict error. -/
def errIndexes : ResolveError → List String
  | .conflictingIndexesUniversal _ l => l
  | .conflictingIndexesFork _ l _ => l

/-- The package name carried by a failed insert result, if it failed. -/
def conflictPackage : Except ResolveError Unit → Option PackageName
  | .error e => some (errPackage e)
  | .ok _ => none

/-- The conflicting index strings carried by a failed insert result, if it
failed. -/
def conflictIndexes : Except ResolveError Unit → Option (List String)
  | .error e => some (errIndexes e)
  | .ok _ => none

/-- One record-assignment call: the package, the candidate index, and the
enclosing fork identity.  `get` calls never change the tracker, so a trace
of insert calls reaches every state reachable by `get` and `insert`. -/
abbrev InsertRequest := PackageName × IndexUrl × ResolverMarkers

/-- Run a sequence of insert calls from a starting tracker, threading the
state through every call, successful or failed, as `&mut self` does. -/
def runInserts (m : ForkIndexes) : List InsertRequest → ForkIndexes
  | [] => m
  | (p, i, fm) :: rest => runInserts (ForkIndexes.insert m p i fm).2 rest

/-- String rendering of an embedded `IndexUrl` is the string itself. -/
theorem render_eq_self (s : String) : toString s = s := rfl

theorem mapInsert_fst (k : PackageName) (v : IndexUrl) (l : List (PackageName × IndexUrl)) :
    (mapInsert k v l).1 = lookupList l k := by
  induction l with
  | nil => rfl
  | cons hd tl ih =>
    obtain ⟨k', v'⟩ := hd
    by_cases h : k' = k <;> simp [mapInsert, lookupList, h, ih]

theorem lookupList_mapInsert_self (k : PackageName) (v : IndexUrl)
    (l : List (PackageName × IndexUrl)) : lookupList (mapInsert k v l).2 k = some v := by
  induction l with
  | nil => simp [mapInsert, lookupList]
  | cons hd tl ih =>
    obtain ⟨k', v'⟩ := hd
    by_cases h : k' = k <;> simp [mapInsert, lookupList, h, ih]

theorem lookupList_mapInsert_ne (k : PackageName) (v : IndexUrl) (q : PackageName)
    (l : List (PackageName × IndexUrl)) (h : q ≠ k) :
    lookupList (mapInsert k v l).2 q = lookupList l q := by
  induction l with
  | nil => simp [mapInsert, lookupList, Ne.symm h]
  | cons hd tl ih =>
    obtain ⟨k', v'⟩ := hd
    by_cases hk : k' = k
    · subst hk
      simp [mapInsert, lookupList, Ne.symm h]
    · simp [mapInsert, lookupList, hk, ih]

theorem mapInsert_of_lookup_eq (k : PackageName) (v : IndexUrl)
    (l : List (PackageName × IndexUrl)) (h : lookupList l k = some v) :
    (mapInsert k v l).2 = l := by
  induction l with
  | nil => simp [lookupList] at h
  | cons hd tl ih =>
    obtain ⟨k', v'⟩ := hd
    by_cases hk : k' = k
    · subst hk
      simp [lookupList] at h
      simp [mapInsert, h]
    · simp [lookupList, hk] at h
      simp [mapInsert, hk, ih h]

theorem mem_keys_mapInsert (k : PackageName) (v : IndexUrl) (x : PackageName)
    (l : List (PackageName × IndexUrl)) (h : x ∈ (mapInsert k v l).2.map Prod.fst) :
    x = k ∨ x ∈ l.map Prod.fst := by
  induction l with
  | nil =>
    simp only [mapInsert, List.map_cons, List.map_nil, List.mem_singleton] at h
    exact Or.inl h
  | cons hd tl ih =>
    obtain ⟨k', v'⟩ := hd
    by_cases hk : k' = k
    · have hred : (mapInsert k v ((k', v') :: tl)).2 = (k, v) :: tl := by
        simp [mapInsert, hk]
      rw [hred] at h
      simp only [List.map_cons, List.mem_cons] at h
      rcases h with h | h
      · exact Or.inl h
      · exact Or.inr (List.mem_cons_of_mem _ h)
    · have hred : (mapInsert k v ((k', v') :: tl)).2 = (k', v') :: (mapInsert k v tl).2 := by
        simp [mapInsert, hk]
      rw [hred] at h
      simp only [List.map_cons, List.mem_cons] at h
      rcases h with h | h
      · subst h
        exact Or.inr (List.mem_cons_self _ _)
      · rcases ih h with h | h
        · exact Or.inl h
        · exact Or.inr (List.mem_cons_of_mem _ h)

theorem nodupKeys_mapInsert (k : PackageName) (v : IndexUrl)
    (l : List (PackageName × IndexUrl)) (h : (l.map Prod.fst).Nodup) :
    ((mapInsert k v l).2.map Prod.fst).Nodup := by
  induction l with
  | nil => simp [mapInsert]
  | cons hd tl ih =>
    obtain ⟨k', v'⟩ := hd
    simp only [List.map_cons, List.nodup_cons] at h
    by_cases hk : k' = k
    · have hred : (mapInsert k v ((k', v') :: tl)).2 = (k, v) :: tl := by
        simp [mapInsert, hk]
      rw [hred]
      simp only [List.map_cons, List.nodup_cons]
      exact ⟨hk ▸ h.1, h.2⟩
    · have hred : (mapInsert k v ((k', v') :: tl)).2 = (k', v') :: (mapInsert k v tl).2 := by
        simp [mapInsert, hk]
      rw [hred]
      simp only [List.map_cons, List.nodup_cons]
      refine ⟨fun hmem => ?_, ih h.2⟩
      rcases mem_keys_mapInsert k v k' tl hmem with h' | h'
      · exact hk h'
      · exact h.1 h'

theorem lookup_unique_of_nodupKeys (l : List (PackageName × IndexUrl))
    (h : (l.map Prod.fst).Nodup) (p : PackageName) (i₁ i₂ : IndexUrl)
    (h₁ : (p, i₁) ∈ l) (h₂ : (p, i₂) ∈ l) : i₁ = i₂ := by
  induction l with
  | nil => simp at h₁
  | cons hd tl ih =>
    obtain ⟨k', v'⟩ := hd
    simp only [List.map_cons, List.nodup_cons] at h
    simp only [List.mem_cons, Prod.mk.injEq] at h₁ h₂
    rcases h₁ with ⟨hp₁, hv₁⟩ | h₁ <;> rcases h₂ with ⟨hp₂, hv₂⟩ | h₂
    · exact hv₁.trans hv₂.symm
    · exact absurd (by simpa [hp₁] using List.mem_map_of_mem Prod.fst h₂) h.1
    · exact absurd (by simpa [hp₂] using List.mem_map_of_mem Prod.fst h₁) h.1
    · exact ih h.2 h₁ h₂

theorem sort2_comm (a b : String) : sort2 a b = sort2 b a := by
  unfold sort2
  rcases lt_trichotomy a.data b.data with h | h | h
  · rw [if_neg (asymm h), if_pos h]
  · have hab : a = b := String.toList_inj.mp h
    subst hab
    rfl
  · rw [if_pos h, if_neg (asymm h)]

theorem sort2_sorted (a b : String) : List.Sorted (fun x y => x ≤ y) (sort2 a b) := by
  unfold sort2
  split
  · rename_i h
    have hba : b.data ≤ a.data := le_of_lt h
    simp [List.sorted_cons, hba]
  · rename_i h
    have hab : a.data ≤ b.data := le_of_not_lt h
    simp [List.sorted_cons, hab]

theorem sort2_perm (a b : String) : List.Perm (sort2 a b) [a, b] := by
  unfold sort2
  split
  · exact List.Perm.swap a b []
  · exact List.Perm.refl _

theorem sort2_length (a b : String) : (sort2 a b).length = 2 := by
  unfold sort2
  split <;> rfl

theorem insert_state (m : ForkIndexes) (p : PackageName) (i : IndexUrl)
    (fm : ResolverMarkers) :
    (ForkIndexes.insert m p i fm).2 = ⟨(mapInsert p i m.map).2⟩ := by
  simp only [ForkIndexes.insert]
  split
  · split
    · split <;> rfl
    · rfl
  · rfl

theorem insert_result_of_none (m : ForkIndexes) (p : PackageName) (i : IndexUrl)
    (fm : ResolverMarkers) (h : ForkIndexes.get m p = none) :
    (ForkIndexes.insert m p i fm).1 = .ok () := by
  have hp : (mapInsert p i m.map).1 = none := (mapInsert_fst p i m.map).trans h
  simp only [ForkIndexes.insert, hp]

theorem insert_result_of_eq (m : ForkIndexes) (p : PackageName) (i : IndexUrl)
    (fm : ResolverMarkers) (h : ForkIndexes.get m p = some i) :
    (ForkIndexes.insert m p i fm).1 = .ok () := by
  have hp : (mapInsert p i m.map).1 = some i := (mapInsert_fst p i m.map).trans h
  simp only [ForkIndexes.insert, hp]
  simp

theorem insert_result_of_conflict (m : ForkIndexes) (p : PackageName) (A B : IndexUrl)
    (fm : ResolverMarkers) (h : ForkIndexes.get m p = some A) (hne : A ≠ B) :
    (ForkIndexes.insert m p B fm).1 =
      match fm with
      | .universal | .specificEnvironment _ =>
          .error (.conflictingIndexesUniversal p (sort2 A B))
      | .fork mk => .error (.conflictingIndexesFork p (sort2 A B) mk) := by
  have hp : (mapInsert p B m.map).1 = some A := (mapInsert_fst p B m.map).trans h
  cases fm <;> simp only [ForkIndexes.insert, hp] <;> rw [if_pos hne] <;> rfl

theorem insert_conflict_not_ok (m : ForkIndexes) (p : PackageName) (A B : IndexUrl)
    (fm : ResolverMarkers) (h : ForkIndexes.get m p = some A) (hne : A ≠ B) :
    resultOk (ForkIndexes.insert m p B fm).1 = false := by
  cases fm <;> rw [insert_result_of_conflict m p A B _ h hne] <;> rfl

theorem get_insert_self (m : ForkIndexes) (p : PackageName) (i : IndexUrl)
    (fm : ResolverMarkers) :
    ForkIndexes.get (ForkIndexes.insert m p i fm).2 p = some i := by
  rw [insert_state]
  exact lookupList_mapInsert_self p i m.map

theorem get_insert_ne (m : ForkIndexes) (p : PackageName) (i : IndexUrl)
    (fm : ResolverMarkers) (q : PackageName) (h : q ≠ p) :
    ForkIndexes.get (ForkIndexes.insert m p i fm).2 q = ForkIndexes.get m q := by
  rw [insert_state]
  exact lookupList_mapInsert_ne p i q m.map h

theorem get_runInserts_not_mem (ops : List InsertRequest) (m : ForkIndexes)
    (q : PackageName) (h : q ∉ ops.map (fun r => r.1)) :
    ForkIndexes.get (runInserts m ops) q = ForkIndexes.get m q := by
  induction ops generalizing m with
  | nil => rfl
  | cons op rest ih =>
    obtain ⟨p, i, fm⟩ := op
    simp only [List.map_cons, List.mem_cons] at h
    push_neg at h
    simp only [runInserts]
    rw [ih _ h.2]
    exact get_insert_ne m p i fm q h.1

theorem nodupKeys_runInserts (ops : List InsertRequest) (m : ForkIndexes)
    (h : (m.map.map Prod.fst).Nodup) :
    ((runInserts m ops).map.map Prod.fst).Nodup := by
  induction ops generalizing m with
  | nil => exact h
  | cons op rest ih =>
    obtain ⟨p, i, fm⟩ := op
    simp only [runInserts]
    apply ih
    rw [insert_state]
    exact nodupKeys_mapInsert p i m.map h

/-- Claim C1 (counterexample): the claim states that a failed insert leaves
the tracker unchanged, so that a subsequent get still returns the previously
recorded index.  At the concrete state mapping `pkg` to
`https://a.example`, inserting `https://b.example` for `pkg` fails with a
conflict, yet get afterwards returns the rejected candidate rather than the
previously recorded index: the source writes the candidate into the map
before comparing it with the previous value. -/
theorem claim_C1_counterexample :
    resultOk (ForkIndexes.insert ⟨[("pkg", "https://a.example")]⟩ "pkg"
        "https://b.example" .universal).1 = false ∧
    ForkIndexes.get (ForkIndexes.insert ⟨[("pkg", "https://a.example")]⟩ "pkg"
        "https://b.example" .universal).2 "pkg" = some "https://b.example" ∧
    (some "https://b.example" : Option IndexUrl) ≠ some "https://a.example" := by
  decide

/-- Claim C1 (amended): if insert(P, B) fails with a conflict because a
different index A was previously recorded for package P, then the failed
call has changed the tracker state: a subsequent get(P) returns the
rejected candidate B, not A. -/
theorem claim_C1_amended (m : ForkIndexes) (P : PackageName) (A B : IndexUrl)
    (fm : ResolverMarkers) (hA : ForkIndexes.get m P = some A) (hne : A ≠ B) :
    resultOk (ForkIndexes.insert m P B fm).1 = false ∧
    ForkIndexes.get (ForkIndexes.insert m P B fm).2 P = some B :=
  ⟨insert_conflict_not_ok m P A B fm hA hne, get_insert_self m P B fm⟩

/-- Claim C1 (witness for the amended theorem). -/
theorem claim_C1_amended_witness :
    ForkIndexes.get ⟨[("pkg", "https://a.example")]⟩ "pkg" = some "https://a.example" ∧
    ("https://a.example" : IndexUrl) ≠ "https://b.example" ∧
    (resultOk (ForkIndexes.insert ⟨[("pkg", "https://a.example")]⟩ "pkg"
        "https://b.example" .universal).1 = false ∧
     ForkIndexes.get (ForkIndexes.insert ⟨[("pkg", "https://a.example")]⟩ "pkg"
        "https://b.example" .universal).2 "pkg" = some "https://b.example") :=
  ⟨rfl, by decide,
    claim_C1_amended ⟨[("pkg", "https://a.example")]⟩ "pkg" "https://a.example"
      "https://b.example" .universal rfl (by decide)⟩

/-- Claim C2: on a fresh tracker, insert(P, A) then insert(P, B) with A ≠ B
fails on the second call, while insert(P, A) then insert(P, A) succeeds on
both calls, under any fork identities. -/
theorem claim_C2 (P : PackageName) (A B : IndexUrl)
    (f₁ f₂ f₃ f₄ : ResolverMarkers) (hne : A ≠ B) :
    resultOk (ForkIndexes.insert ForkIndexes.empty P A f₁).1 = true ∧
    resultOk (ForkIndexes.insert
        (ForkIndexes.insert ForkIndexes.empty P A f₁).2 P B f₂).1 = false ∧
    resultOk (ForkIndexes.insert ForkIndexes.empty P A f₃).1 = true ∧
    resultOk (ForkIndexes.insert
        (ForkIndexes.insert ForkIndexes.empty P A f₃).2 P A f₄).1 = true := by
  refine ⟨?_, ?_, ?_, ?_⟩
  · rw [insert_result_of_none] <;> rfl
  · exact insert_conflict_not_ok _ P A B f₂ (get_insert_self _ P A f₁) hne
  · rw [insert_result_of_none] <;> rfl
  · rw [insert_result_of_eq _ P A f₄ (get_insert_self _ P A f₃)]
    rfl

/-- Claim C2 (witness). -/
theorem claim_C2_witness :
    ("https://a.example" : IndexUrl) ≠ "https://b.example" ∧
    (resultOk (ForkIndexes.insert ForkIndexes.empty "foo" "https://a.example" .universal).1 = true ∧
     resultOk (ForkIndexes.insert
        (ForkIndexes.insert ForkIndexes.empty "foo" "https://a.example" .universal).2
        "foo" "https://b.example" .universal).1 = false ∧
     resultOk (ForkIndexes.insert ForkIndexes.empty "foo" "https://a.example" .universal).1 = true ∧
     resultOk (ForkIndexes.insert
        (ForkIndexes.insert ForkIndexes.empty "foo" "https://a.example" .universal).2
        "foo" "https://a.example" .universal).1 = true) :=
  ⟨by decide,
    claim_C2 "foo" "https://a.example" "https://b.example"
      .universal .universal .universal .universal (by decide)⟩

/-- Claim C3: a conflicting insert fails with an error carrying the package
name and both conflicting index identities, rendered as strings and sorted
lexicographically: the carried list equals `sort2 A B`, which is invariant
under swapping the recording order, is sorted, and is a permutation of the
two identities. -/
theorem claim_C3 (m : ForkIndexes) (P : PackageName) (A B : IndexUrl)
    (fm : ResolverMarkers) (hA : ForkIndexes.get m P = some A) (hne : A ≠ B) :
    conflictPackage (ForkIndexes.insert m P B fm).1 = some P ∧
    conflictIndexes (ForkIndexes.insert m P B fm).1 = some (sort2 A B) ∧
    sort2 A B = sort2 B A ∧
    List.Sorted (fun x y => x ≤ y) (sort2 A B) ∧
    List.Perm (sort2 A B) [A, B] := by
  refine ⟨?_, ?_, sort2_comm A B, sort2_sorted A B, sort2_perm A B⟩
  · cases fm <;> rw [insert_result_of_conflict m P A B _ hA hne] <;> rfl
  · cases fm <;> rw [insert_result_of_conflict m P A B _ hA hne] <;> rfl

/-- Claim C3 (witness): recording `https://b.example` first and then
`https://a.example` yields the conflict list
`[https://a.example, https://b.example]`. -/
theorem claim_C3_witness :
    ForkIndexes.get ⟨[("foo", "https://b.example")]⟩ "foo" = some "https://b.example" ∧
    ("https://b.example" : IndexUrl) ≠ "https://a.example" ∧
    (conflictPackage (ForkIndexes.insert ⟨[("foo", "https://b.example")]⟩ "foo"
        "https://a.example" .universal).1 = some "foo" ∧
     conflictIndexes (ForkIndexes.insert ⟨[("foo", "https://b.example")]⟩ "foo"
        "https://a.example" .universal).1
        = some (sort2 "https://b.example" "https://a.example") ∧
     sort2 "https://b.example" "https://a.example"
        = sort2 "https://a.example" "https://b.example" ∧
     List.Sorted (fun x y => x ≤ y) (sort2 "https://b.example" "https://a.example") ∧
     List.Perm (sort2 "https://b.example" "https://a.example")
        ["https://b.example", "https://a.example"]) :=
  ⟨rfl, by decide,
    claim_C3 ⟨[("foo", "https://b.example")]⟩ "foo" "https://b.example"
      "https://a.example" .universal rfl (by decide)⟩

/-- Claim C4: the kind of conflict error is determined by the enclosing fork
identity: under Universal or SpecificEnvironment the universal-kind error is
returned, carrying no marker context; under Fork(markers) the fork-kind
error is returned, carrying exactly that fork's markers. -/
theorem claim_C4 (m : ForkIndexes) (P : PackageName) (A B : IndexUrl)
    (env : ResolverMarkerEnvironment) (mk : MarkerTree)
    (hA : ForkIndexes.get m P = some A) (hne : A ≠ B) :
    (ForkIndexes.insert m P B .universal).1
        = .error (.conflictingIndexesUniversal P (sort2 A B)) ∧
    (ForkIndexes.insert m P B (.specificEnvironment env)).1
        = .error (.conflictingIndexesUniversal P (sort2 A B)) ∧
    (ForkIndexes.insert m P B (.fork mk)).1
        = .error (.conflictingIndexesFork P (sort2 A B) mk) := by
  refine ⟨?_, ?_, ?_⟩
  · rw [insert_result_of_conflict m P A B _ hA hne]
  · rw [insert_result_of_conflict m P A B _ hA hne]
  · rw [insert_result_of_conflict m P A B _ hA hne]

/-- Claim C4 (witness). -/
theorem claim_C4_witness :
    ForkIndexes.get ⟨[("foo", "https://b.example")]⟩ "foo" = some "https://b.example" ∧
    ("https://b.example" : IndexUrl) ≠ "https://a.example" ∧
    ((ForkIndexes.insert ⟨[("foo", "https://b.example")]⟩ "foo"
        "https://a.example" .universal).1
        = .error (.conflictingIndexesUniversal "foo"
            (sort2 "https://b.example" "https://a.example")) ∧
     (ForkIndexes.insert ⟨[("foo", "https://b.example")]⟩ "foo"
        "https://a.example" (.specificEnvironment "cpython-3.12-linux")).1
        = .error (.conflictingIndexesUniversal "foo"
            (sort2 "https://b.example" "https://a.example")) ∧
     (ForkIndexes.insert ⟨[("foo", "https://b.example")]⟩ "foo"
        "https://a.example" (.fork "python_version lt 3.9")).1
        = .error (.conflictingIndexesFork "foo"
            (sort2 "https://b.example" "https://a.example") "python_version lt 3.9")) :=
  ⟨rfl, by decide,
    claim_C4 ⟨[("foo", "https://b.example")]⟩ "foo" "https://b.example"
      "https://a.example" "cpython-3.12-linux" "python_version lt 3.9" rfl (by decide)⟩

/-- Claim C5 (counterexample): the claim states that from every tracker
state, inserting the same (package, index) pair twice never fails; from the
state mapping `pkg` to `a`, inserting (`pkg`, `b`) twice fails on the first
call (and, because the failed call overwrote the entry, succeeds on the
second). -/
theorem claim_C5_counterexample :
    resultOk (ForkIndexes.insert ⟨[("pkg", "a")]⟩ "pkg" "b" .universal).1 = false ∧
    resultOk (ForkIndexes.insert
        (ForkIndexes.insert ⟨[("pkg", "a")]⟩ "pkg" "b" .universal).2
        "pkg" "b" .universal).1 = true := by
  decide

/-- Claim C5 (amended): for every tracker state in which the package is
unrecorded or already recorded with the candidate index, inserting the same
(package, index) pair twice never fails, and the tracker's map after the
second insert equals the map after the first. -/
theorem claim_C5_amended (m : ForkIndexes) (P : PackageName) (A : IndexUrl)
    (f₁ f₂ : ResolverMarkers)
    (h : ForkIndexes.get m P = none ∨ ForkIndexes.get m P = some A) :
    resultOk (ForkIndexes.insert m P A f₁).1 = true ∧
    resultOk (ForkIndexes.insert (ForkIndexes.insert m P A f₁).2 P A f₂).1 = true ∧
    (ForkIndexes.insert (ForkIndexes.insert m P A f₁).2 P A f₂).2
      = (ForkIndexes.insert m P A f₁).2 := by
  refine ⟨?_, ?_, ?_⟩
  · rcases h with h | h
    · rw [insert_result_of_none m P A f₁ h]
      rfl
    · rw [insert_result_of_eq m P A f₁ h]
      rfl
  · rw [insert_result_of_eq _ P A f₂ (get_insert_self m P A f₁)]
    rfl
  · rw [insert_state (ForkIndexes.insert m P A f₁).2 P A f₂]
    have h1 : lookupList (ForkIndexes.insert m P A f₁).2.map P = some A :=
      get_insert_self m P A f₁
    rw [mapInsert_of_lookup_eq P A _ h1]

/-- Claim C5 (witness for the amended theorem). -/
theorem claim_C5_amended_witness :
    (ForkIndexes.get ForkIndexes.empty "pkg" = none ∨
     ForkIndexes.get ForkIndexes.empty "pkg" = some "a") ∧
    (resultOk (ForkIndexes.insert ForkIndexes.empty "pkg" "a" .universal).1 = true ∧
     resultOk (ForkIndexes.insert
        (ForkIndexes.insert ForkIndexes.empty "pkg" "a" .universal).2
        "pkg" "a" .universal).1 = true ∧
     (ForkIndexes.insert (ForkIndexes.insert ForkIndexes.empty "pkg" "a" .universal).2
        "pkg" "a" .universal).2
       = (ForkIndexes.insert ForkIndexes.empty "pkg" "a" .universal).2) :=
  ⟨Or.inl rfl,
    claim_C5_amended ForkIndexes.empty "pkg" "a" .universal .universal (Or.inl rfl)⟩

/-- Claim C6: after a successful insert(P, A), get(P) returns A; get of a
package never inserted over any run from the empty tracker returns none.
Lookup is free of side effects by construction: `ForkIndexes.get` consumes
the tracker immutably and returns only the lookup result, never a new
state. -/
theorem claim_C6 (m : ForkIndexes) (P : PackageName) (A : IndexUrl)
    (fm : ResolverMarkers) (ops : List InsertRequest) (Q : PackageName)
    (hok : resultOk (ForkIndexes.insert m P A fm).1 = true)
    (hQ : Q ∉ ops.map (fun r => r.1)) :
    ForkIndexes.get (ForkIndexes.insert m P A fm).2 P = some A ∧
    ForkIndexes.get (runInserts ForkIndexes.empty ops) Q = none := by
  refine ⟨get_insert_self m P A fm, ?_⟩
  rw [get_runInserts_not_mem ops ForkIndexes.empty Q hQ]
  rfl

/-- Claim C6 (witness). -/
theorem claim_C6_witness :
    resultOk (ForkIndexes.insert ForkIndexes.empty "p" "a" .universal).1 = true ∧
    ("z" : PackageName) ∉ ([("q", "b", ResolverMarkers.universal)].map (fun r => r.1)) ∧
    (ForkIndexes.get (ForkIndexes.insert ForkIndexes.empty "p" "a" .universal).2 "p"
        = some "a" ∧
     ForkIndexes.get (runInserts ForkIndexes.empty [("q", "b", ResolverMarkers.universal)]) "z"
        = none) :=
  ⟨rfl, by decide,
    claim_C6 ForkIndexes.empty "p" "a" .universal
      [("q", "b", ResolverMarkers.universal)] "z" rfl (by decide)⟩

/-- Claim C7: fork isolation.  Inserting (P, A) into one fresh,
independently owned tracker and (P, B), with A ≠ B, into another both
succeed; and the outcome of an insert depends only on the tracker's own
contents: trackers with equal contents produce identical results for every
insert. -/
theorem claim_C7 (P : PackageName) (A B : IndexUrl) (f₁ f₂ : ResolverMarkers)
    (hne : A ≠ B) :
    resultOk (ForkIndexes.insert ForkIndexes.empty P A f₁).1 = true ∧
    resultOk (ForkIndexes.insert ForkIndexes.empty P B f₂).1 = true ∧
    ∀ (m₁ m₂ : ForkIndexes) (Q : PackageName) (i : IndexUrl) (fm : ResolverMarkers),
      m₁.map = m₂.map → ForkIndexes.insert m₁ Q i fm = ForkIndexes.insert m₂ Q i fm := by
  refine ⟨?_, ?_, ?_⟩
  · rw [insert_result_of_none] <;> rfl
  · rw [insert_result_of_none] <;> rfl
  · intro m₁ m₂ Q i fm hmap
    cases m₁
    cases m₂
    cases hmap
    rfl

/-- Claim C7 (witness). -/
theorem claim_C7_witness :
    ("https://a.example" : IndexUrl) ≠ "https://b.example" ∧
    (resultOk (ForkIndexes.insert ForkIndexes.empty "foo" "https://a.example" .universal).1
        = true ∧
     resultOk (ForkIndexes.insert ForkIndexes.empty "foo" "https://b.example"
        (.fork "sys_platform eq linux")).1 = true ∧
     ∀ (m₁ m₂ : ForkIndexes) (Q : PackageName) (i : IndexUrl) (fm : ResolverMarkers),
       m₁.map = m₂.map → ForkIndexes.insert m₁ Q i fm = ForkIndexes.insert m₂ Q i fm) :=
  ⟨by decide,
    claim_C7 "foo" "https://a.example" "https://b.example"
      .universal (.fork "sys_platform eq linux") (by decide)⟩

/-- Claim C8: single-index invariant.  In every tracker state reachable from
the empty tracker by a sequence of operations — lookups never change the
state, and the trace captures every insert, successful or failed — each
package name is associated with at most one index. -/
theorem claim_C8 (ops : List InsertRequest) (P : PackageName) (i₁ i₂ : IndexUrl)
    (h₁ : (P, i₁) ∈ (runInserts ForkIndexes.empty ops).map)
    (h₂ : (P, i₂) ∈ (runInserts ForkIndexes.empty ops).map) : i₁ = i₂ := by
  refine lookup_unique_of_nodupKeys _ ?_ P i₁ i₂ h₁ h₂
  exact nodupKeys_runInserts ops ForkIndexes.empty (by simp [ForkIndexes.empty])

/-- Claim C8 (witness). -/
theorem claim_C8_witness :
    ("p", ("a" : IndexUrl))
        ∈ (runInserts ForkIndexes.empty
            [("p", "a", ResolverMarkers.universal), ("q", "b", ResolverMarkers.universal)]).map ∧
    ("p", ("a" : IndexUrl))
        ∈ (runInserts ForkIndexes.empty
            [("p", "a", ResolverMarkers.universal), ("q", "b", ResolverMarkers.universal)]).map ∧
    ("a" : IndexUrl) = "a" :=
  ⟨by decide, by decide,
    claim_C8 [("p", "a", ResolverMarkers.universal), ("q", "b", ResolverMarkers.universal)]
      "p" "a" "a" (by decide) (by decide)⟩

/-- Claim C9: when insert(P, B) returns a conflict error because a different
index A was previously recorded for P, the candidate has nonetheless
replaced the prior entry in the map: a subsequent get(P) returns B, and a
subsequent insert(P, A) itself conflicts. -/
theorem claim_C9 (m : ForkIndexes) (P : PackageName) (A B : IndexUrl)
    (f₁ f₂ : ResolverMarkers) (hA : ForkIndexes.get m P = some A) (hne : A ≠ B) :
    resultOk (ForkIndexes.insert m P B f₁).1 = false ∧
    ForkIndexes.get (ForkIndexes.insert m P B f₁).2 P = some B ∧
    resultOk (ForkIndexes.insert (ForkIndexes.insert m P B f₁).2 P A f₂).1 = false := by
  refine ⟨insert_conflict_not_ok m P A B f₁ hA hne, get_insert_self m P B f₁, ?_⟩
  exact insert_conflict_not_ok _ P B A f₂ (get_insert_self m P B f₁) (Ne.symm hne)

/-- Claim C9 (witness). -/
theorem claim_C9_witness :
    ForkIndexes.get ⟨[("p", "a")]⟩ "p" = some "a" ∧
    ("a" : IndexUrl) ≠ "b" ∧
    (resultOk (ForkIndexes.insert ⟨[("p", "a")]⟩ "p" "b" .universal).1 = false ∧
     ForkIndexes.get (ForkIndexes.insert ⟨[("p", "a")]⟩ "p" "b" .universal).2 "p"
        = some "b" ∧
     resultOk (ForkIndexes.insert (ForkIndexes.insert ⟨[("p", "a")]⟩ "p" "b" .universal).2
        "p" "a" (.fork "m")).1 = false) :=
  ⟨rfl, by decide,
    claim_C9 ⟨[("p", "a")]⟩ "p" "a" "b" .universal (.fork "m") rfl (by decide)⟩

/-- Claim C10: every conflict error produced by insert carries exactly two
index strings — the renderings of the prior and the candidate index — never
more, in every state, hence also across repeated conflicting inserts for
the same package. -/
theorem claim_C10 (m : ForkIndexes) (P : PackageName) (i : IndexUrl)
    (fm : ResolverMarkers) (e : ResolveError)
    (h : (ForkIndexes.insert m P i fm).1 = .error e) :
    (errIndexes e).length = 2 := by
  rcases hp : ForkIndexes.get m P with _ | prev
  · rw [insert_result_of_none m P i fm hp] at h
    exact Except.noConfusion h
  · by_cases hpe : prev = i
    · subst hpe
      rw [insert_result_of_eq m P prev fm hp] at h
      exact Except.noConfusion h
    · cases fm
      all_goals
        rw [insert_result_of_conflict m P prev i _ hp hpe] at h
        injection h with h
        subst h
        exact sort2_length _ _

/-- Claim C10 (witness). -/
theorem claim_C10_witness :
    (ForkIndexes.insert ⟨[("p", "b")]⟩ "p" "a" .universal).1
        = .error (.conflictingIndexesUniversal "p" ["a", "b"]) ∧
    (errIndexes (.conflictingIndexesUniversal "p" ["a", "b"])).length = 2 :=
  ⟨rfl,
    claim_C10 ⟨[("p", "b")]⟩ "p" "a" .universal
      (.conflictingIndexesUniversal "p" ["a", "b"]) rfl⟩
